import Mathlib

set_option maxRecDepth 100000

/-!
Verification of the 16-bit educational CPU emulator in
`src/chapter03/CPU_emulator.c` against its natural-language specification.

The C program stores machine words in `short` (signed 16-bit) variables and
is expressly targeted at the GNU toolchain (gcc/clang).  We embed every
`short` by its 16-bit *bit pattern*, a `Nat` in `0..65535`, and translate the
C arithmetic exactly as gcc evaluates it:

* `+`, `-`, `<<` on `short` promote to `int` and truncate back on store,
  i.e. they act modulo 2^16 on the patterns;
* `>>` on a negative `short` is gcc's arithmetic (sign-propagating) shift;
  on the 16-bit pattern `a` this is `a / 2 + 0x8000` when bit 15 of `a` is
  set and `a / 2` otherwise (`asr16` below);
* `ir >> 11` in `op_code` is likewise an arithmetic shift, so a word with
  bit 15 set decodes to a *negative* opcode (the C `switch` then falls into
  `default:`); `op_code` therefore returns an `Int`.

`reg`, `rom` and `ram` are zero-initialised global arrays in the C program;
we model the register file and RAM as total functions `Nat → Nat` inside a
`Machine` record and the ROM as a separate immutable function (it is written
once by `assembler()` before the run).  The program counter `pc` is a
`short` that only ever holds the values `0..255` in the bundled program; we
keep its pattern as a `Nat` reduced modulo 2^16 on increment.
-/

namespace CPU

/-! Opcode constants: the `#define` block of the C file. -/

def MOV : Nat := 0
def ADD : Nat := 1
def SUB : Nat := 2
def AND : Nat := 3
def OR : Nat := 4
def SL : Nat := 5
def SR : Nat := 6
def SRA : Nat := 7
def LDL : Nat := 8
def LDH : Nat := 9
def CMP : Nat := 10
def JE : Nat := 11
def JMP : Nat := 12
def LD : Nat := 13
def ST : Nat := 14
def HLT : Nat := 15

/-! Encoders.  Each C encoder packs its fields with `<<` and `|` into an `int` and returns
it as a `short`; the final `% 65536` is that truncation to 16 bits (for all
in-range operands the value is below 2^15, so no truncation happens).
Operands are C `short`s; we model their non-negative range `0..32767` by
`Nat` arguments.  Note that the immediate/address encoders mask their low
byte with `& 0x00ff` exactly as the C source does, while no encoder masks a
register operand. -/

def mov (ra rb : Nat) : Nat := ((MOV <<< 11) ||| (ra <<< 8) ||| (rb <<< 5)) % 65536

def add (ra rb : Nat) : Nat := ((ADD <<< 11) ||| (ra <<< 8) ||| (rb <<< 5)) % 65536

def sub (ra rb : Nat) : Nat := ((SUB <<< 11) ||| (ra <<< 8) ||| (rb <<< 5)) % 65536

def and (ra rb : Nat) : Nat := ((AND <<< 11) ||| (ra <<< 8) ||| (rb <<< 5)) % 65536

def or (ra rb : Nat) : Nat := ((OR <<< 11) ||| (ra <<< 8) ||| (rb <<< 5)) % 65536

def sl (ra : Nat) : Nat := ((SL <<< 11) ||| (ra <<< 8)) % 65536

def sr (ra : Nat) : Nat := ((SR <<< 11) ||| (ra <<< 8)) % 65536

def sra (ra : Nat) : Nat := ((SRA <<< 11) ||| (ra <<< 8)) % 65536

def ldl (ra ival : Nat) : Nat := ((LDL <<< 11) ||| (ra <<< 8) ||| (ival &&& 255)) % 65536

def ldh (ra ival : Nat) : Nat := ((LDH <<< 11) ||| (ra <<< 8) ||| (ival &&& 255)) % 65536

def cmp (ra rb : Nat) : Nat := ((CMP <<< 11) ||| (ra <<< 8) ||| (rb <<< 5)) % 65536

def je (addr : Nat) : Nat := ((JE <<< 11) ||| (addr &&& 255)) % 65536

def jmp (addr : Nat) : Nat := ((JMP <<< 11) ||| (addr &&& 255)) % 65536

def ld (ra addr : Nat) : Nat := ((LD <<< 11) ||| (ra <<< 8) ||| (addr &&& 255)) % 65536

def st (ra addr : Nat) : Nat := ((ST <<< 11) ||| (ra <<< 8) ||| (addr &&& 255)) % 65536

def hlt : Nat := (HLT <<< 11) % 65536

/-! Decoders.  The function `op_code` is C's `return (ir >> 11);` on a signed `short` `ir`: under gcc
this is an arithmetic shift of the sign-extended value, so for a pattern
with bit 15 set (`ir ≥ 0x8000`) the result is `ir / 2048 - 32`, a negative
number in `-16..-1`.  The other decoders mask with `& 7` / `& 0xff`, which
reads the same bits of the pattern whether or not `ir` is negative. -/

def op_code (ir : Nat) : Int :=
  if ir < 32768 then ((ir >>> 11 : Nat) : Int) else ((ir >>> 11 : Nat) : Int) - 32

def op_regA (ir : Nat) : Nat := (ir >>> 8) &&& 7

def op_regB (ir : Nat) : Nat := (ir >>> 5) &&& 7

def op_data (ir : Nat) : Nat := ir &&& 255

def op_addr (ir : Nat) : Nat := ir &&& 255

/-! Sixteen-bit arithmetic on bit patterns (gcc `short` semantics). -/

/-- Addition of two `short`s: promote, add, truncate to 16 bits. -/
def add16 (a b : Nat) : Nat := (a + b) % 65536

/-- Subtraction of two `short`s: promote, subtract, truncate to 16 bits. -/
def sub16 (a b : Nat) : Nat := (a + (65536 - b % 65536)) % 65536

/-- Left shift by one of a `short`: promote, shift, truncate to 16 bits. -/
def sl16 (a : Nat) : Nat := (a <<< 1) % 65536

/-- Right shift by one of a `short` under gcc: an arithmetic shift of the
sign-extended value, expressed on the 16-bit pattern (bit 15 is replicated). -/
def asr16 (a : Nat) : Nat := if 32768 ≤ a then a / 2 + 32768 else a / 2

/-! Machine state and interpreter. -/

/-- The CPU state mutated by the interpreter loop in `main`: the register
file `reg[8]`, the data memory `ram[256]`, the program counter `pc` and the
comparison flag `flag_eq`.  (`rom` is passed separately: it is written once
before the run and only read afterwards.) -/
structure Machine where
  reg : Nat → Nat
  ram : Nat → Nat
  pc : Nat
  flag_eq : Nat

/-- Point update of a function-modelled array (`arr[i] = v`). -/
def updf (f : Nat → Nat) (i v : Nat) : Nat → Nat := fun j => if j = i then v else f j

/-- The `switch (op_code(ir))` body of `main`: one decode + execute phase.
The numeric cases are the opcode constants: 0 = MOV, 1 = ADD, 2 = SUB,
3 = AND, 4 = OR, 5 = SL, 6 = SR, 7 = SRA, 8 = LDL, 9 = LDH, 10 = CMP,
11 = JE, 12 = JMP, 13 = LD, 14 = ST.  The C switch has no `case HLT:`, so
opcode 15 and the negative opcodes produced by words with bit 15 set all
fall into `default:`, which does nothing. -/
def execute (ir : Nat) (m : Machine) : Machine :=
  if op_code ir = 0 then
    { m with reg := updf m.reg (op_regA ir) (m.reg (op_regB ir)) }
  else if op_code ir = 1 then
    { m with reg := updf m.reg (op_regA ir) (add16 (m.reg (op_regA ir)) (m.reg (op_regB ir))) }
  else if op_code ir = 2 then
    { m with reg := updf m.reg (op_regA ir) (sub16 (m.reg (op_regA ir)) (m.reg (op_regB ir))) }
  else if op_code ir = 3 then
    { m with reg := updf m.reg (op_regA ir) ((m.reg (op_regA ir)) &&& (m.reg (op_regB ir))) }
  else if op_code ir = 4 then
    { m with reg := updf m.reg (op_regA ir) ((m.reg (op_regA ir)) ||| (m.reg (op_regB ir))) }
  else if op_code ir = 5 then
    { m with reg := updf m.reg (op_regA ir) (sl16 (m.reg (op_regA ir))) }
  else if op_code ir = 6 then
    { m with reg := updf m.reg (op_regA ir) (asr16 (m.reg (op_regA ir))) }
  else if op_code ir = 7 then
    { m with reg := updf m.reg (op_regA ir) (((m.reg (op_regA ir)) &&& 32768) ||| asr16 (m.reg (op_regA ir))) }
  else if op_code ir = 8 then
    { m with reg := updf m.reg (op_regA ir) (((m.reg (op_regA ir)) &&& 65280) ||| (op_data ir &&& 255)) }
  else if op_code ir = 9 then
    { m with reg := updf m.reg (op_regA ir) ((op_data ir <<< 8) ||| ((m.reg (op_regA ir)) &&& 255)) }
  else if op_code ir = 10 then
    { m with flag_eq := if m.reg (op_regA ir) = m.reg (op_regB ir) then 1 else 0 }
  else if op_code ir = 11 then
    (if m.flag_eq = 1 then { m with pc := op_addr ir } else m)
  else if op_code ir = 12 then
    { m with pc := op_addr ir }
  else if op_code ir = 13 then
    { m with reg := updf m.reg (op_regA ir) (m.ram (op_addr ir)) }
  else if op_code ir = 14 then
    { m with ram := updf m.ram (op_addr ir) (m.reg (op_regA ir)) }
  else
    m

/-- One iteration of the `do { ... }` loop: fetch `ir = rom[pc]`, increment
`pc` (truncated to the 16-bit `short`), then decode and execute. -/
def step (rom : Nat → Nat) (m : Machine) : Machine :=
  execute (rom m.pc) { m with pc := (m.pc + 1) % 65536 }

/-- Iterate the loop body `n` times, ignoring the halt test (used to observe
where the program counter goes on ROMs that never halt). -/
def stepN (rom : Nat → Nat) : Nat → Machine → Machine
  | 0, m => m
  | n + 1, m => stepN rom n (step rom m)

/-- The full `do ... while (op_code(ir) != HLT)` loop with fuel `n`: runs
cycles until the cycle whose fetched instruction decodes to `HLT` has been
executed, returning the machine state after that final cycle, or `none` if
the fuel runs out before any `HLT` is fetched. -/
def runAux (rom : Nat → Nat) : Nat → Machine → Option Machine
  | 0, _ => none
  | n + 1, m =>
    if op_code (rom m.pc) = 15 then some (step rom m)
    else runAux rom n (step rom m)

/-- Reset state: `reg`, `ram`, `pc` and `flag_eq` all zero (the C globals
are zero-initialised and `main` sets `pc = 0; flag_eq = 0;`). -/
def reset0 : Machine := ⟨fun _ => 0, fun _ => 0, 0, 0⟩

/-! ROM images. -/

/-- The ROM image written by `assembler()`: the 15-word 1+2+...+10 summation
program; every other cell keeps the zero-initialised value. -/
def romProg : Nat → Nat := fun a =>
  if a = 0 then ldh 0 0
  else if a = 1 then ldl 0 0
  else if a = 2 then ldh 1 0
  else if a = 3 then ldl 1 1
  else if a = 4 then ldh 2 0
  else if a = 5 then ldl 2 0
  else if a = 6 then ldh 3 0
  else if a = 7 then ldl 3 10
  else if a = 8 then add 2 1
  else if a = 9 then add 0 2
  else if a = 10 then st 0 64
  else if a = 11 then cmp 2 3
  else if a = 12 then je 14
  else if a = 13 then jmp 8
  else if a = 14 then hlt
  else 0

/-- Scenario S4 ROM: `LDH REG0,0x80; LDL REG0,0x00; SR REG0; HLT`. -/
def romS4 : Nat → Nat := fun a =>
  if a = 0 then ldh 0 128
  else if a = 1 then ldl 0 0
  else if a = 2 then sr 0
  else if a = 3 then hlt
  else 0

/-- Scenario S4 variant ROM: same prefix with `SRA` in place of `SR`. -/
def romS4a : Nat → Nat := fun a =>
  if a = 0 then ldh 0 128
  else if a = 1 then ldl 0 0
  else if a = 2 then sra 0
  else if a = 3 then hlt
  else 0

/-- A ROM whose first word has opcode field 16 (bit pattern 0x8000),
followed by `HLT`. -/
def rom16 : Nat → Nat := fun a =>
  if a = 0 then 32768
  else if a = 1 then hlt
  else 0

/-- The all-zero ROM image (every word decodes as `MOV REG0,REG0`; no cell
ever decodes to `HLT`). -/
def zeroRom : Nat → Nat := fun _ => 0

/-! Helper lemmas: arithmetic characterisations of the bit-level encoders
and decoders. -/

/-- Masking with 255 is reduction modulo 256. -/
theorem and255_eq_mod (x : Nat) : x &&& 255 = x % 256 := Nat.and_pow_two_sub_one_eq_mod x 8

/-- Masking with 7 is reduction modulo 8. -/
theorem and7_eq_mod (x : Nat) : x &&& 7 = x % 8 := Nat.and_pow_two_sub_one_eq_mod x 3

/-- Left shift by 11 is multiplication by 2048. -/
theorem shiftLeft11_eq (x : Nat) : x <<< 11 = 2048 * x := by
  rw [Nat.shiftLeft_eq]; omega

/-- Left shift by 8 is multiplication by 256. -/
theorem shiftLeft8_eq (x : Nat) : x <<< 8 = 256 * x := by
  rw [Nat.shiftLeft_eq]; omega

/-- Left shift by 5 is multiplication by 32. -/
theorem shiftLeft5_eq (x : Nat) : x <<< 5 = 32 * x := by
  rw [Nat.shiftLeft_eq]; omega

/-- The regA decoder in division/modulus form. -/
theorem op_regA_eq (ir : Nat) : op_regA ir = ir / 256 % 8 := by
  rw [op_regA, Nat.shiftRight_eq_div_pow, and7_eq_mod]

/-- The regB decoder in division/modulus form. -/
theorem op_regB_eq (ir : Nat) : op_regB ir = ir / 32 % 8 := by
  rw [op_regB, Nat.shiftRight_eq_div_pow, and7_eq_mod]

/-- The immediate decoder in modulus form. -/
theorem op_data_eq (ir : Nat) : op_data ir = ir % 256 := and255_eq_mod ir

/-- The address decoder in modulus form. -/
theorem op_addr_eq (ir : Nat) : op_addr ir = ir % 256 := and255_eq_mod ir

/-- On words below 2^15 (non-negative `short`s) the opcode decoder is plain
division by 2048. -/
theorem op_code_lt32768 (ir : Nat) (h : ir < 32768) : op_code ir = ((ir / 2048 : Nat) : Int) := by
  rw [op_code, if_pos h, Nat.shiftRight_eq_div_pow]

/-- On words with bit 15 set (negative `short`s) the opcode decoder returns
the arithmetically shifted, negative value. -/
theorem op_code_ge32768 (ir : Nat) (h : ¬ ir < 32768) :
    op_code ir = ((ir / 2048 : Nat) : Int) - 32 := by
  rw [op_code, if_neg h, Nat.shiftRight_eq_div_pow]

/-- Bitwise or of disjoint parts is addition (2048-aligned case). -/
theorem or_add_2048 (a b : Nat) (h : b < 2048) : 2048 * a ||| b = 2048 * a + b := by
  have h2 : b < 2 ^ 11 := by omega
  have h3 := (Nat.mul_add_lt_is_or h2 a).symm
  norm_num at h3
  exact h3

/-- Bitwise or of disjoint parts is addition (256-aligned case). -/
theorem or_add_256 (a b : Nat) (h : b < 256) : 256 * a ||| b = 256 * a + b := by
  have h2 : b < 2 ^ 8 := by omega
  have h3 := (Nat.mul_add_lt_is_or h2 a).symm
  norm_num at h3
  exact h3

/-- Bitwise or with the lone bit 15 is addition. -/
theorem or_add_32768 (b : Nat) (h : b < 32768) : 32768 ||| b = 32768 + b := by
  have h2 : b < 2 ^ 15 := by omega
  have h3 := (Nat.mul_add_lt_is_or h2 1).symm
  norm_num at h3
  exact h3

/-- Words below 2^15 have bit 15 clear. -/
theorem and_bit15_lo (x : Nat) (h : x < 32768) : x &&& 32768 = 0 := by
  have h2 := Nat.and_two_pow x 15
  have ht : x.testBit 15 = false := by
    rw [Nat.testBit_to_div_mod]
    simp only [decide_eq_false_iff_not]
    omega
  rw [ht] at h2
  norm_num at h2
  exact h2

/-- Sixteen-bit words at or above 2^15 have bit 15 set. -/
theorem and_bit15_hi (x : Nat) (h1 : 32768 ≤ x) (h2 : x < 65536) : x &&& 32768 = 32768 := by
  have h3 := Nat.and_two_pow x 15
  have ht : x.testBit 15 = true := by
    rw [Nat.testBit_to_div_mod]
    simp only [decide_eq_true_eq]
    omega
  rw [ht] at h3
  norm_num at h3
  exact h3

/-- The SRA data path `(x & 0x8000) | (x >> 1)`, computed with gcc's
arithmetic shift as the C code does, equals the same formula computed with a
logical (zero-fill) shift: for negative operands the arithmetic shift only
re-creates bits that the `| 0x8000` and the or already supply. -/
theorem sra_matches_spec_formula (v : Nat) (h : v < 65536) :
    (v &&& 32768) ||| asr16 v = (v &&& 32768) ||| (v >>> 1) := by
  have hsr : v >>> 1 = v / 2 := by rw [Nat.shiftRight_eq_div_pow]
  by_cases h15 : 32768 ≤ v
  · have hv2 : v / 2 < 32768 := by omega
    rw [and_bit15_hi v h15 h, hsr]
    simp only [asr16]
    rw [if_pos h15]
    rw [show v / 2 + 32768 = 32768 ||| v / 2 by rw [or_add_32768 _ hv2]; omega]
    rw [← Nat.lor_assoc, Nat.or_self]
  · rw [and_bit15_lo v (by omega), hsr]
    simp only [asr16]
    rw [if_neg h15]

/-- Canonical arithmetic form of the register-plus-immediate encoders. -/
theorem enc_data_eq (opc ra d : Nat) (h1 : opc < 16) (h2 : ra < 8) :
    ((opc <<< 11) ||| (ra <<< 8) ||| (d &&& 255)) % 65536 = 2048 * opc + 256 * ra + d % 256 := by
  have e1 : (opc <<< 11) ||| (ra <<< 8) = 2048 * opc + 256 * ra := by
    rw [shiftLeft11_eq, shiftLeft8_eq]
    exact or_add_2048 opc (256 * ra) (by omega)
  have e3 := or_add_256 (8 * opc + ra) (d % 256) (by omega)
  have e4 : 256 * (8 * opc + ra) = 2048 * opc + 256 * ra := by ring
  rw [e4] at e3
  rw [e1, and255_eq_mod, e3, Nat.mod_eq_of_lt (by omega)]

/-- Canonical arithmetic form of the address-only encoders. -/
theorem enc_addr_eq (opc a : Nat) (h1 : opc < 16) :
    ((opc <<< 11) ||| (a &&& 255)) % 65536 = 2048 * opc + a % 256 := by
  have e3 := or_add_256 (8 * opc) (a % 256) (by omega)
  have e4 : 256 * (8 * opc) = 2048 * opc := by ring
  rw [e4] at e3
  rw [shiftLeft11_eq, and255_eq_mod, e3, Nat.mod_eq_of_lt (by omega)]

/-- Decoding a word in canonical field form recovers the fields. -/
theorem decode_fields (opc ra b : Nat) (h1 : opc < 16) (h2 : ra < 8) (hb : b < 256) :
    op_code (2048 * opc + 256 * ra + b) = (opc : Int) ∧
    op_regA (2048 * opc + 256 * ra + b) = ra ∧
    op_data (2048 * opc + 256 * ra + b) = b := by
  refine ⟨?_, ?_, ?_⟩
  · rw [op_code_lt32768 _ (by omega)]
    omega
  · rw [op_regA_eq]
    omega
  · rw [op_data_eq]
    omega

/-- Every decoded register index is below 8 and every decoded address is
below 256, for arbitrary instruction words. -/
theorem decoders_bounded (ir : Nat) :
    op_regA ir < 8 ∧ op_regB ir < 8 ∧ op_addr ir < 256 := by
  refine ⟨?_, ?_, ?_⟩
  · rw [op_regA_eq]; omega
  · rw [op_regB_eq]; omega
  · rw [op_addr_eq]; omega

/-- The SRA case of the switch, isolated by collapsing the if chain. -/
theorem execute_case_sra (ir : Nat) (m : Machine) (h : op_code ir = 7) :
    execute ir m = { m with reg := updf m.reg (op_regA ir) (((m.reg (op_regA ir)) &&& 32768) ||| asr16 (m.reg (op_regA ir))) } := by
  unfold execute
  rw [if_neg (show ¬op_code ir = 0 by rw [h]; decide),
    if_neg (show ¬op_code ir = 1 by rw [h]; decide),
    if_neg (show ¬op_code ir = 2 by rw [h]; decide),
    if_neg (show ¬op_code ir = 3 by rw [h]; decide),
    if_neg (show ¬op_code ir = 4 by rw [h]; decide),
    if_neg (show ¬op_code ir = 5 by rw [h]; decide),
    if_neg (show ¬op_code ir = 6 by rw [h]; decide),
    if_pos h]

/-- The CMP case of the switch, isolated by collapsing the if chain. -/
theorem execute_case_cmp (ir : Nat) (m : Machine) (h : op_code ir = 10) :
    execute ir m = { m with flag_eq := if m.reg (op_regA ir) = m.reg (op_regB ir) then 1 else 0 } := by
  unfold execute
  rw [if_neg (show ¬op_code ir = 0 by rw [h]; decide),
    if_neg (show ¬op_code ir = 1 by rw [h]; decide),
    if_neg (show ¬op_code ir = 2 by rw [h]; decide),
    if_neg (show ¬op_code ir = 3 by rw [h]; decide),
    if_neg (show ¬op_code ir = 4 by rw [h]; decide),
    if_neg (show ¬op_code ir = 5 by rw [h]; decide),
    if_neg (show ¬op_code ir = 6 by rw [h]; decide),
    if_neg (show ¬op_code ir = 7 by rw [h]; decide),
    if_neg (show ¬op_code ir = 8 by rw [h]; decide),
    if_neg (show ¬op_code ir = 9 by rw [h]; decide),
    if_pos h]

/-- The JE case of the switch, isolated by collapsing the if chain. -/
theorem execute_case_je (ir : Nat) (m : Machine) (h : op_code ir = 11) :
    execute ir m = if m.flag_eq = 1 then { m with pc := op_addr ir } else m := by
  unfold execute
  rw [if_neg (show ¬op_code ir = 0 by rw [h]; decide),
    if_neg (show ¬op_code ir = 1 by rw [h]; decide),
    if_neg (show ¬op_code ir = 2 by rw [h]; decide),
    if_neg (show ¬op_code ir = 3 by rw [h]; decide),
    if_neg (show ¬op_code ir = 4 by rw [h]; decide),
    if_neg (show ¬op_code ir = 5 by rw [h]; decide),
    if_neg (show ¬op_code ir = 6 by rw [h]; decide),
    if_neg (show ¬op_code ir = 7 by rw [h]; decide),
    if_neg (show ¬op_code ir = 8 by rw [h]; decide),
    if_neg (show ¬op_code ir = 9 by rw [h]; decide),
    if_neg (show ¬op_code ir = 10 by rw [h]; decide),
    if_pos h]

/-- The JMP case of the switch, isolated by collapsing the if chain. -/
theorem execute_case_jmp (ir : Nat) (m : Machine) (h : op_code ir = 12) :
    execute ir m = { m with pc := op_addr ir } := by
  unfold execute
  rw [if_neg (show ¬op_code ir = 0 by rw [h]; decide),
    if_neg (show ¬op_code ir = 1 by rw [h]; decide),
    if_neg (show ¬op_code ir = 2 by rw [h]; decide),
    if_neg (show ¬op_code ir = 3 by rw [h]; decide),
    if_neg (show ¬op_code ir = 4 by rw [h]; decide),
    if_neg (show ¬op_code ir = 5 by rw [h]; decide),
    if_neg (show ¬op_code ir = 6 by rw [h]; decide),
    if_neg (show ¬op_code ir = 7 by rw [h]; decide),
    if_neg (show ¬op_code ir = 8 by rw [h]; decide),
    if_neg (show ¬op_code ir = 9 by rw [h]; decide),
    if_neg (show ¬op_code ir = 10 by rw [h]; decide),
    if_neg (show ¬op_code ir = 11 by rw [h]; decide),
    if_pos h]

/-- Any opcode that is no case of the switch falls through to `default:`,
leaving the machine state untouched. -/
theorem execute_default (ir : Nat) (m : Machine)
    (k0 : ¬op_code ir = 0) (k1 : ¬op_code ir = 1) (k2 : ¬op_code ir = 2)
    (k3 : ¬op_code ir = 3) (k4 : ¬op_code ir = 4) (k5 : ¬op_code ir = 5)
    (k6 : ¬op_code ir = 6) (k7 : ¬op_code ir = 7) (k8 : ¬op_code ir = 8)
    (k9 : ¬op_code ir = 9) (k10 : ¬op_code ir = 10) (k11 : ¬op_code ir = 11)
    (k12 : ¬op_code ir = 12) (k13 : ¬op_code ir = 13) (k14 : ¬op_code ir = 14) :
    execute ir m = m := by
  unfold execute
  rw [if_neg k0, if_neg k1, if_neg k2, if_neg k3, if_neg k4, if_neg k5, if_neg k6,
    if_neg k7, if_neg k8, if_neg k9, if_neg k10, if_neg k11, if_neg k12, if_neg k13,
    if_neg k14]

/-- Opcode 15 (`HLT`) is no case of the switch: its cycle leaves the machine
state untouched. -/
theorem execute_case_hlt (ir : Nat) (m : Machine) (h : op_code ir = 15) :
    execute ir m = m := by
  refine execute_default ir m ?_ ?_ ?_ ?_ ?_ ?_ ?_ ?_ ?_ ?_ ?_ ?_ ?_ ?_ ?_ <;>
    rw [h] <;> decide

/-- Words with bit 15 set decode to negative opcodes, none of which is a
case of the switch: the `default:` branch leaves the machine unchanged. -/
theorem execute_invalid (ir : Nat) (m : Machine) (h1 : 32768 ≤ ir) (h2 : ir < 65536) :
    execute ir m = m := by
  have hc : op_code ir = ((ir / 2048 : Nat) : Int) - 32 := op_code_ge32768 ir (by omega)
  refine execute_default ir m ?_ ?_ ?_ ?_ ?_ ?_ ?_ ?_ ?_ ?_ ?_ ?_ ?_ ?_ ?_ <;>
    rw [hc] <;> omega

/-- Master case analysis of the switch: the flag only changes under CMP,
the program counter only changes under JMP or a taken JE, register cells
with index at least 8 are never written, and RAM cells with index at least
256 are never written. -/
theorem execute_obs (ir : Nat) (m : Machine) :
    (op_code ir = 10 ∨ (execute ir m).flag_eq = m.flag_eq) ∧
    (op_code ir = 12 ∨ (op_code ir = 11 ∧ m.flag_eq = 1) ∨ (execute ir m).pc = m.pc) ∧
    (∀ i, 8 ≤ i → (execute ir m).reg i = m.reg i) ∧
    (∀ a, 256 ≤ a → (execute ir m).ram a = m.ram a) := by
  unfold execute
  by_cases h0 : op_code ir = 0
  · rw [if_pos h0]
    refine ⟨Or.inr rfl, Or.inr (Or.inr rfl), ?_, fun a ha => rfl⟩
    intro i hi
    have hb := op_regA_eq ir
    simp only [updf]
    rw [if_neg (show ¬i = op_regA ir by omega)]
  · rw [if_neg h0]
    by_cases h1 : op_code ir = 1
    · rw [if_pos h1]
      refine ⟨Or.inr rfl, Or.inr (Or.inr rfl), ?_, fun a ha => rfl⟩
      intro i hi
      have hb := op_regA_eq ir
      simp only [updf]
      rw [if_neg (show ¬i = op_regA ir by omega)]
    · rw [if_neg h1]
      by_cases h2 : op_code ir = 2
      · rw [if_pos h2]
        refine ⟨Or.inr rfl, Or.inr (Or.inr rfl), ?_, fun a ha => rfl⟩
        intro i hi
        have hb := op_regA_eq ir
        simp only [updf]
        rw [if_neg (show ¬i = op_regA ir by omega)]
      · rw [if_neg h2]
        by_cases h3 : op_code ir = 3
        · rw [if_pos h3]
          refine ⟨Or.inr rfl, Or.inr (Or.inr rfl), ?_, fun a ha => rfl⟩
          intro i hi
          have hb := op_regA_eq ir
          simp only [updf]
          rw [if_neg (show ¬i = op_regA ir by omega)]
        · rw [if_neg h3]
          by_cases h4 : op_code ir = 4
          · rw [if_pos h4]
            refine ⟨Or.inr rfl, Or.inr (Or.inr rfl), ?_, fun a ha => rfl⟩
            intro i hi
            have hb := op_regA_eq ir
            simp only [updf]
            rw [if_neg (show ¬i = op_regA ir by omega)]
          · rw [if_neg h4]
            by_cases h5 : op_code ir = 5
            · rw [if_pos h5]
              refine ⟨Or.inr rfl, Or.inr (Or.inr rfl), ?_, fun a ha => rfl⟩
              intro i hi
              have hb := op_regA_eq ir
              simp only [updf]
              rw [if_neg (show ¬i = op_regA ir by omega)]
            · rw [if_neg h5]
              by_cases h6 : op_code ir = 6
              · rw [if_pos h6]
                refine ⟨Or.inr rfl, Or.inr (Or.inr rfl), ?_, fun a ha => rfl⟩
                intro i hi
                have hb := op_regA_eq ir
                simp only [updf]
                rw [if_neg (show ¬i = op_regA ir by omega)]
              · rw [if_neg h6]
                by_cases h7 : op_code ir = 7
                · rw [if_pos h7]
                  refine ⟨Or.inr rfl, Or.inr (Or.inr rfl), ?_, fun a ha => rfl⟩
                  intro i hi
                  have hb := op_regA_eq ir
                  simp only [updf]
                  rw [if_neg (show ¬i = op_regA ir by omega)]
                · rw [if_neg h7]
                  by_cases h8 : op_code ir = 8
                  · rw [if_pos h8]
                    refine ⟨Or.inr rfl, Or.inr (Or.inr rfl), ?_, fun a ha => rfl⟩
                    intro i hi
                    have hb := op_regA_eq ir
                    simp only [updf]
                    rw [if_neg (show ¬i = op_regA ir by omega)]
                  · rw [if_neg h8]
                    by_cases h9 : op_code ir = 9
                    · rw [if_pos h9]
                      refine ⟨Or.inr rfl, Or.inr (Or.inr rfl), ?_, fun a ha => rfl⟩
                      intro i hi
                      have hb := op_regA_eq ir
                      simp only [updf]
                      rw [if_neg (show ¬i = op_regA ir by omega)]
                    · rw [if_neg h9]
                      by_cases h10 : op_code ir = 10
                      · rw [if_pos h10]
                        exact ⟨Or.inl h10, Or.inr (Or.inr rfl), fun i hi => rfl, fun a ha => rfl⟩
                      · rw [if_neg h10]
                        by_cases h11 : op_code ir = 11
                        · rw [if_pos h11]
                          by_cases hf : m.flag_eq = 1
                          · rw [if_pos hf]
                            exact ⟨Or.inr rfl, Or.inr (Or.inl ⟨h11, hf⟩), fun i hi => rfl, fun a ha => rfl⟩
                          · rw [if_neg hf]
                            exact ⟨Or.inr rfl, Or.inr (Or.inr rfl), fun i hi => rfl, fun a ha => rfl⟩
                        · rw [if_neg h11]
                          by_cases h12 : op_code ir = 12
                          · rw [if_pos h12]
                            exact ⟨Or.inr rfl, Or.inl h12, fun i hi => rfl, fun a ha => rfl⟩
                          · rw [if_neg h12]
                            by_cases h13 : op_code ir = 13
                            · rw [if_pos h13]
                              refine ⟨Or.inr rfl, Or.inr (Or.inr rfl), ?_, fun a ha => rfl⟩
                              intro i hi
                              have hb := op_regA_eq ir
                              simp only [updf]
                              rw [if_neg (show ¬i = op_regA ir by omega)]
                            · rw [if_neg h13]
                              by_cases h14 : op_code ir = 14
                              · rw [if_pos h14]
                                refine ⟨Or.inr rfl, Or.inr (Or.inr rfl), fun i hi => rfl, ?_⟩
                                intro a ha
                                have hb := op_addr_eq ir
                                simp only [updf]
                                rw [if_neg (show ¬a = op_addr ir by omega)]
                              · rw [if_neg h14]
                                exact ⟨Or.inr rfl, Or.inr (Or.inr rfl), fun i hi => rfl, fun a ha => rfl⟩

/-- The fetch-execute phase never changes the flag except through CMP. -/
theorem execute_flag_ne (ir : Nat) (m : Machine) (h : op_code ir ≠ 10) :
    (execute ir m).flag_eq = m.flag_eq :=
  ((execute_obs ir m).1).resolve_left h

/-- The execute phase leaves the program counter alone except for JMP and a
taken JE. -/
theorem execute_pc_ne (ir : Nat) (m : Machine)
    (hje : ¬(op_code ir = 11 ∧ m.flag_eq = 1)) (hjmp : op_code ir ≠ 12) :
    (execute ir m).pc = m.pc := by
  rcases (execute_obs ir m).2.1 with h | h | h
  · exact absurd h hjmp
  · exact absurd h hje
  · exact h

/-- Unfolding lemma: with no fuel the loop yields nothing. -/
theorem runAux_zero (rom : Nat → Nat) (m : Machine) : runAux rom 0 m = none := rfl

/-- Unfolding lemma: one iteration of the fuelled do-while loop. -/
theorem runAux_succ (rom : Nat → Nat) (k : Nat) (m : Machine) :
    runAux rom (k + 1) m =
      if op_code (rom m.pc) = 15 then some (step rom m) else runAux rom k (step rom m) := rfl

/-! Claim theorems. -/

/-- C1: Running the interpreter on the ROM written by `assembler()`
terminates on the `HLT` at ROM address 14 (opcode of `rom[14]` is 15 and the
run returns within 100 cycles), and afterwards `ram[64] = 55`,
`reg[0] = 55`, `reg[2] = 10`, `flag_eq = 1` and the final program counter is
15. -/
theorem c1_sum_program :
    (runAux romProg 100 reset0).map
        (fun m => (m.ram 64, m.reg 0, m.reg 2, m.flag_eq, m.pc)) =
      some (55, 55, 10, 1, 15) ∧
    op_code (romProg 14) = 15 := by
  exact ⟨by decide, by decide⟩


/-- C2: ROM-image equality aside, decoding the word produced by each of the
sixteen encoders on legal operands (register indices below 8, immediates
and addresses below 256) recovers the opcode and every operand field. -/
theorem c2_codec_roundtrip :
    (∀ ra, ra < 8 → ∀ rb, rb < 8 →
      op_code (mov ra rb) = 0 ∧ op_regA (mov ra rb) = ra ∧ op_regB (mov ra rb) = rb) ∧
    (∀ ra, ra < 8 → ∀ rb, rb < 8 →
      op_code (add ra rb) = 1 ∧ op_regA (add ra rb) = ra ∧ op_regB (add ra rb) = rb) ∧
    (∀ ra, ra < 8 → ∀ rb, rb < 8 →
      op_code (sub ra rb) = 2 ∧ op_regA (sub ra rb) = ra ∧ op_regB (sub ra rb) = rb) ∧
    (∀ ra, ra < 8 → ∀ rb, rb < 8 →
      op_code (and ra rb) = 3 ∧ op_regA (and ra rb) = ra ∧ op_regB (and ra rb) = rb) ∧
    (∀ ra, ra < 8 → ∀ rb, rb < 8 →
      op_code (or ra rb) = 4 ∧ op_regA (or ra rb) = ra ∧ op_regB (or ra rb) = rb) ∧
    (∀ ra, ra < 8 → ∀ rb, rb < 8 →
      op_code (cmp ra rb) = 10 ∧ op_regA (cmp ra rb) = ra ∧ op_regB (cmp ra rb) = rb) ∧
    (∀ ra, ra < 8 → op_code (sl ra) = 5 ∧ op_regA (sl ra) = ra) ∧
    (∀ ra, ra < 8 → op_code (sr ra) = 6 ∧ op_regA (sr ra) = ra) ∧
    (∀ ra, ra < 8 → op_code (sra ra) = 7 ∧ op_regA (sra ra) = ra) ∧
    (∀ ra, ra < 8 → ∀ d, d < 256 →
      op_code (ldl ra d) = 8 ∧ op_regA (ldl ra d) = ra ∧ op_data (ldl ra d) = d) ∧
    (∀ ra, ra < 8 → ∀ d, d < 256 →
      op_code (ldh ra d) = 9 ∧ op_regA (ldh ra d) = ra ∧ op_data (ldh ra d) = d) ∧
    (∀ a, a < 256 → op_code (je a) = 11 ∧ op_addr (je a) = a) ∧
    (∀ a, a < 256 → op_code (jmp a) = 12 ∧ op_addr (jmp a) = a) ∧
    (∀ ra, ra < 8 → ∀ d, d < 256 →
      op_code (ld ra d) = 13 ∧ op_regA (ld ra d) = ra ∧ op_addr (ld ra d) = d) ∧
    (∀ ra, ra < 8 → ∀ d, d < 256 →
      op_code (st ra d) = 14 ∧ op_regA (st ra d) = ra ∧ op_addr (st ra d) = d) ∧
    op_code hlt = 15 := by
  refine ⟨?_, ?_, ?_, ?_, ?_, ?_, ?_, ?_, ?_, ?_, ?_, ?_, ?_, ?_, ?_, ?_⟩ <;> decide

/-- Witness for C2: the round trip at concrete legal operands. -/
theorem c2_codec_roundtrip_witness :
    (op_code (mov 3 5) = 0 ∧ op_regA (mov 3 5) = 3 ∧ op_regB (mov 3 5) = 5) ∧
    (op_code (ldl 2 200) = 8 ∧ op_regA (ldl 2 200) = 2 ∧ op_data (ldl 2 200) = 200) ∧
    (op_code (je 14) = 11 ∧ op_addr (je 14) = 14) :=
  ⟨c2_codec_roundtrip.1 3 (by decide) 5 (by decide),
   c2_codec_roundtrip.2.2.2.2.2.2.2.2.2.1 2 (by decide) 200 (by decide),
   c2_codec_roundtrip.2.2.2.2.2.2.2.2.2.2.2.1 14 (by decide)⟩

/-- C3: Under gcc the C expression `reg[A] >> 1` on a negative `short` is an
arithmetic shift, so the S4 program `LDH REG0,0x80; LDL REG0,0x00; SR REG0;
HLT` leaves `reg[0] = 0xC000 = 49152`, not the zero-filled `0x4000 = 16384`
the specification demands of SR.  This evaluates the embedded code at the
claim's own test input. -/
theorem c3_sr_shifts_arithmetically :
    (runAux romS4 10 reset0).map (fun m => m.reg 0) = some 49152 := by decide

/-- C4: An SRA instruction replaces `reg[A]` with
`(reg[A] & 0x8000) | (reg[A] >>> 1)` (logical shift in the formula), for
every 16-bit register value; and the S4 variant program with SRA ends with
`reg[0] = 0xC000 = 49152`. -/
theorem c4_sra_semantics :
    (∀ (ir : Nat) (m : Machine), op_code ir = 7 → m.reg (op_regA ir) < 65536 →
      (execute ir m).reg (op_regA ir) =
        ((m.reg (op_regA ir)) &&& 32768) ||| ((m.reg (op_regA ir)) >>> 1)) ∧
    (runAux romS4a 10 reset0).map (fun m => m.reg 0) = some 49152 := by
  constructor
  · intro ir m h7 hv
    rw [execute_case_sra ir m h7]
    simp only [updf]
    rw [if_true]
    exact sra_matches_spec_formula _ hv
  · decide

/-- Witness for C4: SRA on the reset machine. -/
theorem c4_sra_semantics_witness :
    (execute (sra 0) reset0).reg (op_regA (sra 0)) =
      ((reset0.reg (op_regA (sra 0))) &&& 32768) ||| ((reset0.reg (op_regA (sra 0))) >>> 1) :=
  c4_sra_semantics.1 (sra 0) reset0 (by decide) (by decide)

/-- C5: A cycle whose fetched instruction does not decode to CMP leaves the
equality flag unchanged, and a CMP cycle sets it to 1 exactly when the two
compared registers are equal (0 otherwise). -/
theorem c5_flag_isolation :
    (∀ (rom : Nat → Nat) (m : Machine), op_code (rom m.pc) ≠ 10 →
      (step rom m).flag_eq = m.flag_eq) ∧
    (∀ (rom : Nat → Nat) (m : Machine), op_code (rom m.pc) = 10 →
      (step rom m).flag_eq =
        if m.reg (op_regA (rom m.pc)) = m.reg (op_regB (rom m.pc)) then 1 else 0) := by
  constructor
  · intro rom m h
    exact execute_flag_ne (rom m.pc) { m with pc := (m.pc + 1) % 65536 } h
  · intro rom m h
    rw [step, execute_case_cmp (rom m.pc) _ h]

/-- Witness for C5: the first cycle of the bundled program (an LDH) keeps
the flag, and the CMP at address 11 computes it from the registers. -/
theorem c5_flag_isolation_witness :
    (step romProg reset0).flag_eq = reset0.flag_eq ∧
    (step romProg { reset0 with pc := 11 }).flag_eq =
      (if ({ reset0 with pc := 11 } : Machine).reg (op_regA (romProg 11)) =
          ({ reset0 with pc := 11 } : Machine).reg (op_regB (romProg 11)) then 1 else 0) :=
  ⟨c5_flag_isolation.1 romProg reset0 (by decide),
   c5_flag_isolation.2 romProg { reset0 with pc := 11 } (by decide)⟩

/-- C6: The program counter is incremented by exactly 1 on every cycle
before execute (for every opcode including HLT); a JMP or a taken JE then
overwrites it with the decoded 8-bit address; and whenever the run halts,
the final program counter is the successor of the ROM address the HLT was
fetched from. -/
theorem c6_pc_discipline :
    (∀ (rom : Nat → Nat) (m : Machine), m.pc < 65535 →
      ¬(op_code (rom m.pc) = 11 ∧ m.flag_eq = 1) → op_code (rom m.pc) ≠ 12 →
      (step rom m).pc = m.pc + 1) ∧
    (∀ (rom : Nat → Nat) (m : Machine), op_code (rom m.pc) = 12 →
      (step rom m).pc = op_addr (rom m.pc)) ∧
    (∀ (rom : Nat → Nat) (m : Machine), op_code (rom m.pc) = 11 → m.flag_eq = 1 →
      (step rom m).pc = op_addr (rom m.pc)) ∧
    (∀ (rom : Nat → Nat) (n : Nat) (m : Machine) (q : Nat),
      (runAux rom n m).map Machine.pc = some q →
      ∃ p, op_code (rom p) = 15 ∧ q = (p + 1) % 65536) := by
  refine ⟨?_, ?_, ?_, ?_⟩
  · intro rom m hpc hje hjmp
    have h := execute_pc_ne (rom m.pc) { m with pc := (m.pc + 1) % 65536 } hje hjmp
    rw [step, h]
    show (m.pc + 1) % 65536 = m.pc + 1
    omega
  · intro rom m h
    rw [step, execute_case_jmp (rom m.pc) _ h]
  · intro rom m h11 hf
    rw [step, execute_case_je (rom m.pc) _ h11, if_pos hf]
  · intro rom n
    induction n with
    | zero =>
      intro m q h
      rw [runAux_zero] at h
      simp at h
    | succ k ih =>
      intro m q h
      rw [runAux_succ] at h
      by_cases hh : op_code (rom m.pc) = 15
      · rw [if_pos hh] at h
        simp only [Option.map_some', Option.some.injEq] at h
        refine ⟨m.pc, hh, ?_⟩
        rw [← h, step, execute_case_hlt (rom m.pc) _ hh]
      · rw [if_neg hh] at h
        exact ih (step rom m) q h

/-- Witness for C6: the increment on the first cycle, the JMP at address 13,
the taken JE at address 12, and the halting run of the bundled program. -/
theorem c6_pc_discipline_witness :
    (step romProg reset0).pc = reset0.pc + 1 ∧
    (step romProg { reset0 with pc := 13 }).pc = op_addr (romProg 13) ∧
    (step romProg { reset0 with pc := 12, flag_eq := 1 }).pc = op_addr (romProg 12) ∧
    (∃ p, op_code (romProg p) = 15 ∧ 15 = (p + 1) % 65536) :=
  ⟨c6_pc_discipline.1 romProg reset0 (by decide) (by decide) (by decide),
   c6_pc_discipline.2.1 romProg { reset0 with pc := 13 } (by decide),
   c6_pc_discipline.2.2.1 romProg { reset0 with pc := 12, flag_eq := 1 } (by decide) (by decide),
   c6_pc_discipline.2.2.2 romProg 100 reset0 15 (by decide)⟩

/-- C7 counterexample: the register operand of `mov` is packed without any
masking, so the out-of-range index 8 overflows into the opcode field instead
of being truncated to 3 bits: `mov 8 0` is the word 2048 (which decodes to
opcode 1 = ADD), while truncation before packing would give `mov 0 0 = 0`. -/
theorem c7_counterexample :
    mov 8 0 = 2048 ∧ mov 0 0 = 0 ∧ op_code (mov 8 0) = 1 :=
  ⟨by decide, by decide, by decide⟩

/-- C7 (amended): every encoder truncates an out-of-range immediate or
address operand to 8 bits before packing, and decoding then returns the
truncated value together with the intact opcode and register fields;
register index operands, however, are packed without truncation. -/
theorem c7_field_masking_amended :
    (∀ ra, ra < 8 → ∀ d, d < 32768 →
      op_code (ldl ra d) = 8 ∧ op_regA (ldl ra d) = ra ∧ op_data (ldl ra d) = d % 256) ∧
    (∀ ra, ra < 8 → ∀ d, d < 32768 →
      op_code (ldh ra d) = 9 ∧ op_regA (ldh ra d) = ra ∧ op_data (ldh ra d) = d % 256) ∧
    (∀ ra, ra < 8 → ∀ d, d < 32768 →
      op_code (ld ra d) = 13 ∧ op_regA (ld ra d) = ra ∧ op_addr (ld ra d) = d % 256) ∧
    (∀ ra, ra < 8 → ∀ d, d < 32768 →
      op_code (st ra d) = 14 ∧ op_regA (st ra d) = ra ∧ op_addr (st ra d) = d % 256) ∧
    (∀ a, a < 32768 → op_code (je a) = 11 ∧ op_addr (je a) = a % 256) ∧
    (∀ a, a < 32768 → op_code (jmp a) = 12 ∧ op_addr (jmp a) = a % 256) ∧
    mov 8 0 ≠ mov 0 0 := by
  refine ⟨?_, ?_, ?_, ?_, ?_, ?_, by decide⟩
  · intro ra hra d hd
    have hw : ldl ra d = 2048 * 8 + 256 * ra + d % 256 := by
      show ((LDL <<< 11) ||| (ra <<< 8) ||| (d &&& 255)) % 65536 = 2048 * 8 + 256 * ra + d % 256
      rw [show LDL = 8 from rfl]
      exact enc_data_eq 8 ra d (by omega) hra
    rw [hw]
    exact decode_fields 8 ra (d % 256) (by omega) hra (by omega)
  · intro ra hra d hd
    have hw : ldh ra d = 2048 * 9 + 256 * ra + d % 256 := by
      show ((LDH <<< 11) ||| (ra <<< 8) ||| (d &&& 255)) % 65536 = 2048 * 9 + 256 * ra + d % 256
      rw [show LDH = 9 from rfl]
      exact enc_data_eq 9 ra d (by omega) hra
    rw [hw]
    exact decode_fields 9 ra (d % 256) (by omega) hra (by omega)
  · intro ra hra d hd
    have hw : ld ra d = 2048 * 13 + 256 * ra + d % 256 := by
      show ((LD <<< 11) ||| (ra <<< 8) ||| (d &&& 255)) % 65536 = 2048 * 13 + 256 * ra + d % 256
      rw [show LD = 13 from rfl]
      exact enc_data_eq 13 ra d (by omega) hra
    rw [hw]
    exact decode_fields 13 ra (d % 256) (by omega) hra (by omega)
  · intro ra hra d hd
    have hw : st ra d = 2048 * 14 + 256 * ra + d % 256 := by
      show ((ST <<< 11) ||| (ra <<< 8) ||| (d &&& 255)) % 65536 = 2048 * 14 + 256 * ra + d % 256
      rw [show ST = 14 from rfl]
      exact enc_data_eq 14 ra d (by omega) hra
    rw [hw]
    exact decode_fields 14 ra (d % 256) (by omega) hra (by omega)
  · intro a ha
    have hw : je a = 2048 * 11 + a % 256 := by
      show ((JE <<< 11) ||| (a &&& 255)) % 65536 = 2048 * 11 + a % 256
      rw [show JE = 11 from rfl]
      exact enc_addr_eq 11 a (by omega)
    constructor
    · rw [hw, op_code_lt32768 _ (by omega)]
      omega
    · rw [hw, op_addr_eq]
      omega
  · intro a ha
    have hw : jmp a = 2048 * 12 + a % 256 := by
      show ((JMP <<< 11) ||| (a &&& 255)) % 65536 = 2048 * 12 + a % 256
      rw [show JMP = 12 from rfl]
      exact enc_addr_eq 12 a (by omega)
    constructor
    · rw [hw, op_code_lt32768 _ (by omega)]
      omega
    · rw [hw, op_addr_eq]
      omega

/-- Witness for C7: truncation of the out-of-range immediate 999 in LDL and
of the out-of-range address 999 in JMP. -/
theorem c7_field_masking_witness :
    (op_code (ldl 1 999) = 8 ∧ op_regA (ldl 1 999) = 1 ∧ op_data (ldl 1 999) = 999 % 256) ∧
    (op_code (jmp 999) = 12 ∧ op_addr (jmp 999) = 999 % 256) :=
  ⟨c7_field_masking_amended.1 1 (by decide) 999 (by decide),
   c7_field_masking_amended.2.2.2.2.2.1 999 (by decide)⟩

/-- C8 counterexample: the all-zero ROM image never decodes an HLT, and
after 256 cycles the program counter is 256, so the still-running loop's
next fetch `rom[pc]` reads index 256, outside 0..255; nothing rejects or
traps it. -/
theorem c8_counterexample :
    (stepN zeroRom 256 reset0).pc = 256 ∧ (runAux zeroRom 257 reset0).isSome = false :=
  ⟨by decide, by decide⟩

/-- C8 (amended): register-file and RAM accesses are always in bounds
because the decoders mask their fields to 3 and 8 bits, but the ROM fetch
index is the unchecked program counter: on a ROM with no reachable HLT the
counter walks past the last valid index 255. -/
theorem c8_bounds_amended :
    (∀ ir : Nat, op_regA ir < 8 ∧ op_regB ir < 8 ∧ op_addr ir < 256) ∧
    (stepN zeroRom 255 reset0).pc = 255 ∧
    (runAux zeroRom 256 reset0).isSome = false :=
  ⟨fun ir => decoders_bounded ir, by decide, by decide⟩

/-- C9 counterexample: a ROM whose first word is 0x8000 (opcode field 16)
runs to completion: the invalid word is executed as a silent no-operation
(all registers and the flag stay 0) and the machine then halts normally on
the HLT at address 1 with final program counter 2 — there is no fatal
error. -/
theorem c9_counterexample :
    (runAux rom16 10 reset0).map
      (fun m => (m.reg 0, m.reg 1, m.reg 2, m.reg 3, m.flag_eq, m.pc)) =
      some (0, 0, 0, 0, 0, 2) := by decide

/-- C9 (amended): executing an instruction word whose 5-bit opcode field is
in 16..31 (bit 15 set) is silently treated as a no-operation: the execute
phase leaves the machine state exactly unchanged (only the fetch phase's
program-counter increment remains), and the run continues. -/
theorem c9_invalid_opcode_nop :
    (∀ (ir : Nat) (m : Machine), 32768 ≤ ir → ir < 65536 → execute ir m = m) ∧
    (runAux rom16 10 reset0).map Machine.pc = some 2 :=
  ⟨fun ir m h1 h2 => execute_invalid ir m h1 h2, by decide⟩

/-- Witness for C9: the invalid word 0x8000 executed on the reset machine. -/
theorem c9_invalid_opcode_witness : execute 32768 reset0 = reset0 :=
  c9_invalid_opcode_nop.1 32768 reset0 (by decide) (by decide)

/-- C10: For every 16-bit instruction word the decoded register indices are
below 8 and the decoded address is below 256; consequently the execute
phase never writes a register cell with index at least 8 nor a RAM cell
with index at least 256, for any instruction and any state. -/
theorem c10_execute_accesses_in_bounds :
    (∀ ir : Nat, op_regA ir < 8 ∧ op_regB ir < 8 ∧ op_addr ir < 256) ∧
    (∀ (ir : Nat) (m : Machine) (i : Nat), 8 ≤ i → (execute ir m).reg i = m.reg i) ∧
    (∀ (ir : Nat) (m : Machine) (a : Nat), 256 ≤ a → (execute ir m).ram a = m.ram a) :=
  ⟨fun ir => decoders_bounded ir,
   fun ir m i hi => (execute_obs ir m).2.2.1 i hi,
   fun ir m a ha => (execute_obs ir m).2.2.2 a ha⟩

/-- Witness for C10: a MOV does not touch register cell 8 and an ST does
not touch RAM cell 300. -/
theorem c10_access_bounds_witness :
    (execute (mov 0 1) reset0).reg 8 = reset0.reg 8 ∧
    (execute (st 0 64) reset0).ram 300 = reset0.ram 300 :=
  ⟨c10_execute_accesses_in_bounds.2.1 (mov 0 1) reset0 8 (by decide),
   c10_execute_accesses_in_bounds.2.2 (st 0 64) reset0 300 (by decide)⟩

end CPU

